import Mathlib

set_option autoImplicit false

namespace Sidis

/-!
Shallow embedding of the AI generation orchestrator of the sidis backend
(`routes/flashcards.js` and `routes/quizzes.js`).  JavaScript strings are
modelled as `List Char`; JSON values produced by `JSON.parse` are modelled
by the inductive type `Json` below, with numbers as exact rationals.
-/

/-- Whitespace as used by `\s`, `trim` and the JSON grammar. -/
def isWsC (c : Char) : Bool :=
  c == ' ' || c == '\t' || c == '\n' || c == '\r'

/-- `text.includes(pat)`-style substring test on char lists. -/
def containsSub (pat : List Char) : List Char → Bool
  | [] => pat.isEmpty
  | c :: rest => pat.isPrefixOf (c :: rest) || containsSub pat rest

/-- Lower-casing a char list, modelling a case-insensitive regex test. -/
def lcase (l : List Char) : List Char := l.map Char.toLower

/-- `/pat/i.test(msg)` for a literal pattern `pat`. -/
def containsCI (msg pat : List Char) : Bool := containsSub (lcase pat) (lcase msg)

/-- `String.prototype.trim` (over the modelled whitespace set). -/
def trimChars (l : List Char) : List Char :=
  ((l.dropWhile isWsC).reverse.dropWhile isWsC).reverse

def jsonFenceChars : List Char := "```json".toList

def fenceChars : List Char := "```".toList

/-- `rawResponse.replace(/^```json\s*/i, "")`: remove a leading literal
three-backtick-`json` marker (case-insensitive) plus following whitespace. -/
def stripLeadFence (l : List Char) : List Char :=
  if (l.take 7).map Char.toLower = jsonFenceChars then (l.drop 7).dropWhile isWsC else l

/-- `.replace(/```$/g, "")`: remove a trailing three-backtick marker anchored
at the end of the string, when present. -/
def stripTrailFence (l : List Char) : List Char :=
  if fenceChars.isSuffixOf l then l.take (l.length - 3) else l

/-- The `cleaned` computation of both routes: strip fences, then trim. -/
def stripFences (l : List Char) : List Char :=
  trimChars (stripTrailFence (stripLeadFence l))

/-- A payload wrapped in a fenced code block carrying the `json` language tag. -/
def wrapJsonFence (raw : List Char) : List Char :=
  jsonFenceChars ++ '\n' :: (raw ++ '\n' :: fenceChars)

/-- A payload wrapped in a fenced code block with no language tag. -/
def wrapBareFence (raw : List Char) : List Char :=
  fenceChars ++ '\n' :: (raw ++ '\n' :: fenceChars)

/-! ## JSON values and `JSON.parse` -/

inductive Json where
  | str (s : List Char)
  | num (q : Rat)
  | bool (b : Bool)
  | null
  | arr (elems : List Json)
  | obj (fields : List (List Char × Json))

def isDigitC (c : Char) : Bool := decide ('0' ≤ c ∧ c ≤ '9')

def digitsVal (ds : List Char) : Nat :=
  ds.foldl (fun a c => a * 10 + (c.toNat - 48)) 0

def hexVal (c : Char) : Option Nat :=
  if '0' ≤ c ∧ c ≤ '9' then some (c.toNat - 48)
  else if 'a' ≤ c ∧ c ≤ 'f' then some (c.toNat - 87)
  else if 'A' ≤ c ∧ c ≤ 'F' then some (c.toNat - 55)
  else none

def escChar : Char → Option Char
  | '"' => some '"'
  | '\\' => some '\\'
  | '/' => some '/'
  | 'b' => some (Char.ofNat 8)
  | 'f' => some (Char.ofNat 12)
  | 'n' => some '\n'
  | 'r' => some '\r'
  | 't' => some '\t'
  | _ => none

/-- Body of a JSON string literal, after the opening quote; returns the
decoded characters and the remaining input after the closing quote. -/
def parseStringBody : List Char → Option (List Char × List Char)
  | [] => none
  | '"' :: rest => some ([], rest)
  | '\\' :: 'u' :: h1 :: h2 :: h3 :: h4 :: rest =>
    match hexVal h1, hexVal h2, hexVal h3, hexVal h4 with
    | some a, some b, some c, some d =>
      (parseStringBody rest).map
        (fun p => (Char.ofNat (((a * 16 + b) * 16 + c) * 16 + d) :: p.1, p.2))
    | _, _, _, _ => none
  | '\\' :: e :: rest =>
    match escChar e with
    | some ec => (parseStringBody rest).map (fun p => (ec :: p.1, p.2))
    | none => none
  | ['\\'] => none
  | c :: rest =>
    if c.toNat < 32 then none
    else (parseStringBody rest).map (fun p => (c :: p.1, p.2))

/-- Integer part of a JSON number: `0`, or a nonzero digit followed by digits. -/
def parseIntPart : List Char → Option (List Char × List Char)
  | '0' :: rest => some (['0'], rest)
  | c :: rest =>
    if isDigitC c then some (c :: rest.takeWhile isDigitC, rest.dropWhile isDigitC)
    else none
  | [] => none

/-- Optional fractional part `.digits`. -/
def parseFrac : List Char → Option (List Char × List Char)
  | '.' :: rf =>
    let ds := rf.takeWhile isDigitC
    if ds.isEmpty then none else some (ds, rf.dropWhile isDigitC)
  | cs => some ([], cs)

/-- Optional exponent part `e[+-]digits`. -/
def parseExp : List Char → Option (Int × List Char)
  | c :: rest =>
    if c == 'e' || c == 'E' then
      let sr : Bool × List Char :=
        match rest with
        | '+' :: rr => (false, rr)
        | '-' :: rr => (true, rr)
        | _ => (false, rest)
      let ds := sr.2.takeWhile isDigitC
      if ds.isEmpty then none
      else
        some ((if sr.1 then -(digitsVal ds : Int) else (digitsVal ds : Int)),
          sr.2.dropWhile isDigitC)
    else some (0, c :: rest)
  | [] => some (0, [])

/-- A JSON number starting at the given input (which must begin with `-` or a
digit), as an exact rational. -/
def parseNum (cs : List Char) : Option (Rat × List Char) :=
  let sgn : Bool × List Char :=
    match cs with
    | '-' :: r => (true, r)
    | _ => (false, cs)
  match parseIntPart sgn.2 with
  | none => none
  | some (ip, r1) =>
    match parseFrac r1 with
    | none => none
    | some (fd, r2) =>
      match parseExp r2 with
      | none => none
      | some (ex, r3) =>
        let mant : Int := (digitsVal (ip ++ fd) : Int)
        let mant2 : Int := if sgn.1 then -mant else mant
        let q : Rat :=
          if 0 ≤ ex then mkRat (mant2 * Int.ofNat (10 ^ ex.toNat)) (10 ^ fd.length)
          else mkRat mant2 (10 ^ fd.length * 10 ^ (-ex).toNat)
        some (q, r3)

inductive PMode where
  | val
  | elems
  | members

inductive PRes where
  | v (j : Json)
  | vs (l : List Json)
  | ms (l : List (List Char × Json))

/-- Recursive-descent JSON parser (fuel-indexed so that recursion is
structural).  `PMode.val` parses one value, `PMode.elems` the tail of a
non-empty array, `PMode.members` the tail of a non-empty object. -/
def parseRun : Nat → PMode → List Char → Option (PRes × List Char)
  | 0, _, _ => none
  | Nat.succ fuel, PMode.val, cs =>
    match cs.dropWhile isWsC with
    | 'n' :: 'u' :: 'l' :: 'l' :: rest => some (PRes.v Json.null, rest)
    | 't' :: 'r' :: 'u' :: 'e' :: rest => some (PRes.v (Json.bool true), rest)
    | 'f' :: 'a' :: 'l' :: 's' :: 'e' :: rest => some (PRes.v (Json.bool false), rest)
    | '"' :: rest => (parseStringBody rest).map (fun p => (PRes.v (Json.str p.1), p.2))
    | '[' :: rest =>
      (match rest.dropWhile isWsC with
       | ']' :: rest2 => some (PRes.v (Json.arr []), rest2)
       | _ =>
         match parseRun fuel PMode.elems rest with
         | some (PRes.vs l, rest2) => some (PRes.v (Json.arr l), rest2)
         | _ => none)
    | '{' :: rest =>
      (match rest.dropWhile isWsC with
       | '}' :: rest2 => some (PRes.v (Json.obj []), rest2)
       | _ =>
         match parseRun fuel PMode.members rest with
         | some (PRes.ms l, rest2) => some (PRes.v (Json.obj l), rest2)
         | _ => none)
    | c :: rest =>
      if c == '-' || isDigitC c then
        (parseNum (c :: rest)).map (fun p => (PRes.v (Json.num p.1), p.2))
      else none
    | [] => none
  | Nat.succ fuel, PMode.elems, cs =>
    match parseRun fuel PMode.val cs with
    | some (PRes.v j, rest) =>
      (match rest.dropWhile isWsC with
       | ',' :: rest2 =>
         (match parseRun fuel PMode.elems rest2 with
          | some (PRes.vs l, rest3) => some (PRes.vs (j :: l), rest3)
          | _ => none)
       | ']' :: rest2 => some (PRes.vs [j], rest2)
       | _ => none)
    | _ => none
  | Nat.succ fuel, PMode.members, cs =>
    match cs.dropWhile isWsC with
    | '"' :: rest =>
      (match parseStringBody rest with
       | none => none
       | some (k, rest2) =>
         match rest2.dropWhile isWsC with
         | ':' :: rest3 =>
           (match parseRun fuel PMode.val rest3 with
            | some (PRes.v j, rest4) =>
              (match rest4.dropWhile isWsC with
               | ',' :: rest5 =>
                 (match parseRun fuel PMode.members rest5 with
                  | some (PRes.ms l, rest6) => some (PRes.ms ((k, j) :: l), rest6)
                  | _ => none)
               | '}' :: rest5 => some (PRes.ms [(k, j)], rest5)
               | _ => none)
            | _ => none)
         | _ => none)
    | _ => none

/-- `JSON.parse`: parse one value and require only whitespace after it. -/
def parseJson (cs : List Char) : Option Json :=
  match parseRun (2 * cs.length + 2) PMode.val cs with
  | some (PRes.v j, rest) => if (rest.dropWhile isWsC).isEmpty then some j else none
  | _ => none

/-! ## Response validation (`cards.forEach` / `questions.forEach`) -/

/-- JavaScript property access `o.k` for parsed JSON: only objects have
fields; with duplicate keys the last wins, as in `JSON.parse`. -/
def getField : Json → List Char → Option Json
  | Json.obj kvs, k => (kvs.reverse.find? (fun p => p.1 == k)).map (fun p => p.2)
  | _, _ => none

def qKey : List Char := "question".toList

def aKey : List Char := "answer".toList

def optKey : List Char := "options".toList

def caKey : List Char := "correctAnswer".toList

inductive FieldName where
  | question
  | answer
  | options
  | correctAnswer
deriving DecidableEq

/-- Validation failures: JSON parse error, non-array/empty payload, or a bad
field of the element at the recorded index. -/
inductive VErr where
  | parseFail
  | badShape
  | badField (i : Nat) (f : FieldName)
deriving DecidableEq

/-- One flashcard element (`routes/flashcards.js`): `question` and `answer`
must be strings with non-empty trim. -/
def flashElemCheck (i : Nat) (c : Json) : Except VErr Unit :=
  match getField c qKey with
  | some (Json.str s) =>
    if trimChars s = [] then Except.error (VErr.badField i FieldName.question)
    else
      match getField c aKey with
      | some (Json.str t) =>
        if trimChars t = [] then Except.error (VErr.badField i FieldName.answer)
        else Except.ok ()
      | _ => Except.error (VErr.badField i FieldName.answer)
  | _ => Except.error (VErr.badField i FieldName.question)

/-- One quiz element (`routes/quizzes.js`): `question` must be a string,
`options` an array of exactly 4 values, `correctAnswer` an integer in 0..3. -/
def quizElemCheck (i : Nat) (q : Json) : Except VErr Unit :=
  match getField q qKey with
  | some (Json.str _) =>
    (match getField q optKey with
     | some (Json.arr os) =>
       if os.length = 4 then
         match getField q caKey with
         | some (Json.num v) =>
           if v.den = 1 ∧ 0 ≤ v.num ∧ v.num ≤ 3 then Except.ok ()
           else Except.error (VErr.badField i FieldName.correctAnswer)
         | _ => Except.error (VErr.badField i FieldName.correctAnswer)
       else Except.error (VErr.badField i FieldName.options)
     | _ => Except.error (VErr.badField i FieldName.options))
  | _ => Except.error (VErr.badField i FieldName.question)

/-- `forEach` over the elements, failing at the first offending index. -/
def checkElems (chk : Nat → Json → Except VErr Unit) : Nat → List Json → Except VErr Unit
  | _, [] => Except.ok ()
  | i, c :: cs =>
    match chk i c with
    | Except.ok _ => checkElems chk (i + 1) cs
    | Except.error e => Except.error e

/-- The flashcard payload validator: array, non-empty, element checks. -/
def validateFlash (j : Json) : Except VErr (List Json) :=
  match j with
  | Json.arr xs =>
    if xs.length = 0 then Except.error VErr.badShape
    else
      match checkElems flashElemCheck 0 xs with
      | Except.ok _ => Except.ok xs
      | Except.error e => Except.error e
  | _ => Except.error VErr.badShape

/-- The quiz payload validator: array, non-empty, element checks. -/
def validateQuiz (j : Json) : Except VErr (List Json) :=
  match j with
  | Json.arr xs =>
    if xs.length = 0 then Except.error VErr.badShape
    else
      match checkElems quizElemCheck 0 xs with
      | Except.ok _ => Except.ok xs
      | Except.error e => Except.error e
  | _ => Except.error VErr.badShape

/-- Fence-strip, parse and validate a raw model response as flashcards. -/
def validateRawFlash (raw : List Char) : Except VErr (List Json) :=
  match parseJson (stripFences raw) with
  | none => Except.error VErr.parseFail
  | some j => validateFlash j

/-- Fence-strip, parse and validate a raw model response as a quiz. -/
def validateRawQuiz (raw : List Char) : Except VErr (List Json) :=
  match parseJson (stripFences raw) with
  | none => Except.error VErr.parseFail
  | some j => validateQuiz j

def exOk {ε α : Type} : Except ε α → Bool
  | Except.ok _ => true
  | Except.error _ => false

def exErr {ε α : Type} : Except ε α → Option ε
  | Except.error e => some e
  | Except.ok _ => none

/-! ## AIManager: key rotation and model caching -/

/-- A resolved generation endpoint: which key it is bound to and whether the
primary or the fallback model name was used. -/
structure ModelHandle where
  keyIdx : Nat
  usesPrimary : Bool
deriving DecidableEq

/-- Outcome of `new GoogleGenerativeAI(key).getGenerativeModel(...)` for each
key index: whether resolving the primary (resp. fallback) model throws. -/
structure Resolver where
  primaryOk : Nat → Bool
  fallbackOk : Nat → Bool

/-- A JavaScript error as observed by the retry loop: `status` and `message`. -/
structure ErrJs where
  status : Option Int
  message : List Char
deriving DecidableEq

def quotaPat : List Char := "quota".toList

def ratePat : List Char := "RATE_LIMIT".toList

def code429Pat : List Char := "429".toList

def timeoutPat : List Char := "timeout".toList

/-- The `isRateLimit` classification of `rotateIfNeeded`. -/
def isRateLimit (e : ErrJs) : Bool :=
  e.status == some 429 || containsCI e.message quotaPat ||
    containsCI e.message ratePat || containsCI e.message code429Pat

/-- Rotation-manager state: key pool, current index, the `models` map
(newest write first) and a ghost counter of writes to the map. -/
structure MState where
  keys : List String
  currentIdx : Nat
  cache : List (Nat × Option ModelHandle)
  writes : Nat
deriving DecidableEq

/-- `this.models.get(i)` (outer `Option` = presence in the map). -/
def cacheGet (st : MState) (i : Nat) : Option (Option ModelHandle) :=
  (st.cache.find? (fun p => p.1 == i)).map (fun p => p.2)

/-- `this.models.set(i, v)`, also bumping the ghost write counter. -/
def cacheSet (st : MState) (i : Nat) (v : Option ModelHandle) : MState :=
  { st with cache := (i, v) :: st.cache, writes := st.writes + 1 }

/-- `tryFallback()`: resolve the fallback model for the current key, caching
`null` when that fails too. -/
def tryFallback (r : Resolver) (st : MState) : MState :=
  if r.fallbackOk st.currentIdx then cacheSet st st.currentIdx (some ⟨st.currentIdx, false⟩)
  else cacheSet st st.currentIdx none

/-- `initCurrentModel()`: resolve the primary model for the current key,
falling back on failure. -/
def initCurrentModel (r : Resolver) (st : MState) : MState :=
  if r.primaryOk st.currentIdx then cacheSet st st.currentIdx (some ⟨st.currentIdx, true⟩)
  else tryFallback r st

/-- `getCurrentModel()`: `this.models.get(this.currentIdx) ?? null`. -/
def getCurrentModel (st : MState) : Option ModelHandle :=
  match cacheGet st st.currentIdx with
  | some v => v
  | none => none

/-- The `AIManager` constructor. -/
def mkManager (r : Resolver) (keys : List String) : MState :=
  initCurrentModel r ⟨keys, 0, [], 0⟩

def exhaustedMsg : List Char := "All API keys exhausted.".toList

/-- `rotateIfNeeded(error)`: returns the updated state together with either
the thrown exhaustion error, or the optional new model. -/
def rotateIfNeeded (r : Resolver) (st : MState) (e : ErrJs) :
    MState × Except (List Char) (Option ModelHandle) :=
  if isRateLimit e = false ∨ st.keys.length = 1 then (st, Except.ok none)
  else
    let st1 : MState := { st with currentIdx := (st.currentIdx + 1) % st.keys.length }
    let st2 := initCurrentModel r st1
    match getCurrentModel st2 with
    | none => (st2, Except.error exhaustedMsg)
    | some m => (st2, Except.ok (some m))

/-- The public operations of `AIManager` after construction. -/
inductive MgrOp where
  | getModel
  | reinit
  | tryFb
  | rotate (e : ErrJs)

def applyOp (r : Resolver) (st : MState) : MgrOp → MState
  | MgrOp.getModel => st
  | MgrOp.reinit => initCurrentModel r st
  | MgrOp.tryFb => tryFallback r st
  | MgrOp.rotate e => (rotateIfNeeded r st e).1

def runOps (r : Resolver) (st : MState) (ops : List MgrOp) : MState :=
  ops.foldl (applyOp r) st

/-- How many operations of a trace explicitly re-resolve a handle (an
explicit `initCurrentModel`/`tryFallback` call, or a rotation that fires). -/
def resolvingCount (len : Nat) : List MgrOp → Nat
  | [] => 0
  | MgrOp.getModel :: rest => resolvingCount len rest
  | MgrOp.reinit :: rest => 1 + resolvingCount len rest
  | MgrOp.tryFb :: rest => 1 + resolvingCount len rest
  | MgrOp.rotate e :: rest =>
    (if isRateLimit e = true ∧ len ≠ 1 then 1 else 0) + resolvingCount len rest

/-! ## The retry loop of `POST /generate-flashcards` and `/generate-quiz` -/

/-- Outcome of one external `model.generateContent(prompt)` call, indexed by
the ordinal of the call within the request. -/
inductive CallOutcome where
  | ok (text : List Char)
  | err (e : ErrJs)

/-- The `transient` classification of the catch branch. -/
def transient (e : ErrJs) : Bool :=
  e.status == some 429 || e.status == some 500 || e.status == some 503 ||
    containsCI e.message quotaPat || containsCI e.message timeoutPat

def maxAttempts : Nat := 5

/-- `Math.pow(2, attempts) * 1000`. -/
def backoffMs (a : Nat) : Nat := 2 ^ a * 1000

/-- Retry-loop state: manager, current `model` variable, `attempts`, plus
ghost observations (number of calls, the sleeps performed, rotations). -/
structure LoopSt where
  mgr : MState
  model : Option ModelHandle
  attempts : Nat
  callCount : Nat
  sleeps : List Nat
  rotations : Nat
deriving DecidableEq

inductive LoopRes where
  | success (raw : List Char)
  | noResponse
  | thrown (msg : List Char)
  | fuelOut
deriving DecidableEq

/-- `while (attempts < maxAttempts && model)`. -/
def loopCond (st : LoopSt) : Bool :=
  decide (st.attempts < maxAttempts) && st.model.isSome

/-- The retry loop, fuel-indexed.  `LoopRes.fuelOut` means the loop was still
eligible to continue when the fuel ran out. -/
def runLoop (calls : Nat → CallOutcome) (r : Resolver) : Nat → LoopSt → LoopRes × LoopSt
  | 0, st => if loopCond st then (LoopRes.fuelOut, st) else (LoopRes.noResponse, st)
  | Nat.succ fuel, st =>
    if loopCond st then
      match calls st.callCount with
      | CallOutcome.ok t => (LoopRes.success t, { st with callCount := st.callCount + 1 })
      | CallOutcome.err e =>
        let st1 : LoopSt := { st with callCount := st.callCount + 1, attempts := st.attempts + 1 }
        match rotateIfNeeded r st1.mgr e with
        | (m2, Except.error msg) => (LoopRes.thrown msg, { st1 with mgr := m2 })
        | (m2, Except.ok (some h)) =>
          runLoop calls r fuel
            { st1 with mgr := m2, model := some h, attempts := 0,
                       sleeps := st1.sleeps ++ [1000], rotations := st1.rotations + 1 }
        | (m2, Except.ok none) =>
          if transient e && decide (st1.attempts < maxAttempts) then
            runLoop calls r fuel
              { st1 with mgr := m2, sleeps := st1.sleeps ++ [backoffMs st1.attempts] }
          else (LoopRes.noResponse, { st1 with mgr := m2 })
    else (LoopRes.noResponse, st)

/-! ## The route pipeline -/

structure PdfFileJs where
  mimetype : List Char
  size : Nat

/-- External collaborators of one request: the uploaded file, the outcome of
PDF text extraction, the generation-call outcomes, the model resolver, and
the loop fuel. -/
structure RouteEnv where
  pdfFile : Option PdfFileJs
  extractRes : Option (List Char)
  calls : Nat → CallOutcome
  resolver : Resolver
  fuel : Nat

inductive RouteRes where
  | modelUnavailable
  | pdfRequired
  | notPdf
  | tooLarge
  | pdfParseError
  | noText
  | genFailed
  | invalidFormat (debug : List Char)
  | internalErr (msg : List Char)
  | okCards (cards : List Json)
  | fuelOut

def appPdf : List Char := "application/pdf".toList

/-- The `POST /generate-flashcards` handler (same shape as
`/generate-quiz`), returning the response together with the final loop
state (ghost observations included). -/
def generateFlashcardsRoute (env : RouteEnv) (mgr : MState) : RouteRes × LoopSt :=
  match getCurrentModel mgr with
  | none => (RouteRes.modelUnavailable, ⟨mgr, none, 0, 0, [], 0⟩)
  | some cm =>
    let st0 : LoopSt := ⟨mgr, some cm, 0, 0, [], 0⟩
    match env.pdfFile with
    | none => (RouteRes.pdfRequired, st0)
    | some f =>
      if f.mimetype ≠ appPdf then (RouteRes.notPdf, st0)
      else if 5 * 1024 * 1024 < f.size then (RouteRes.tooLarge, st0)
      else
        match env.extractRes with
        | none => (RouteRes.pdfParseError, st0)
        | some txt =>
          if (trimChars txt).isEmpty then (RouteRes.noText, st0)
          else
            let rs := runLoop env.calls env.resolver env.fuel st0
            match rs.1 with
            | LoopRes.thrown msg => (RouteRes.internalErr msg, rs.2)
            | LoopRes.fuelOut => (RouteRes.fuelOut, rs.2)
            | LoopRes.noResponse => (RouteRes.genFailed, rs.2)
            | LoopRes.success raw =>
              if raw.isEmpty then (RouteRes.genFailed, rs.2)
              else
                match validateRawFlash raw with
                | Except.error _ => (RouteRes.invalidFormat (raw.take 500), rs.2)
                | Except.ok cards => (RouteRes.okCards cards, rs.2)

def resAllOk : Resolver := ⟨fun _ => true, fun _ => true⟩

def resAllBad : Resolver := ⟨fun _ => false, fun _ => false⟩

def quotaErr : ErrJs := ⟨some 429, quotaPat⟩

def allQuotaCalls : Nat → CallOutcome := fun _ => CallOutcome.err quotaErr

/-! ## Helper lemmas about the rotation manager -/

/-- What resolution caches for index `i`: primary handle, else fallback
handle, else `null`. -/
def resolvedEntry (r : Resolver) (i : Nat) : Option ModelHandle :=
  if r.primaryOk i then some ⟨i, true⟩ else if r.fallbackOk i then some ⟨i, false⟩ else none

theorem initCurrentModel_eq (r : Resolver) (st : MState) :
    initCurrentModel r st = cacheSet st st.currentIdx (resolvedEntry r st.currentIdx) := by
  unfold initCurrentModel tryFallback resolvedEntry
  split
  · rfl
  · split <;> rfl

theorem cacheGet_set_self (st : MState) (i : Nat) (v : Option ModelHandle) :
    cacheGet (cacheSet st i v) i = some v := by
  simp [cacheGet, cacheSet]

theorem getCurrentModel_init (r : Resolver) (st : MState) :
    getCurrentModel (initCurrentModel r st) = resolvedEntry r st.currentIdx := by
  rw [initCurrentModel_eq]
  unfold getCurrentModel
  have h : (cacheSet st st.currentIdx (resolvedEntry r st.currentIdx)).currentIdx
      = st.currentIdx := rfl
  rw [h, cacheGet_set_self]

theorem rotateIfNeeded_noop (r : Resolver) (st : MState) (e : ErrJs)
    (h : isRateLimit e = false ∨ st.keys.length = 1) :
    rotateIfNeeded r st e = (st, Except.ok none) := by
  unfold rotateIfNeeded
  rw [if_pos h]

theorem rotateIfNeeded_fire (r : Resolver) (st : MState) (e : ErrJs)
    (h1 : isRateLimit e = true) (h2 : st.keys.length ≠ 1) :
    rotateIfNeeded r st e =
      (cacheSet { st with currentIdx := (st.currentIdx + 1) % st.keys.length }
          ((st.currentIdx + 1) % st.keys.length)
          (resolvedEntry r ((st.currentIdx + 1) % st.keys.length)),
       match resolvedEntry r ((st.currentIdx + 1) % st.keys.length) with
       | none => Except.error exhaustedMsg
       | some m => Except.ok (some m)) := by
  unfold rotateIfNeeded
  rw [if_neg (by simp [h1, h2])]
  simp only [getCurrentModel_init]
  simp only [initCurrentModel_eq]
  cases hres : resolvedEntry r ((st.currentIdx + 1) % st.keys.length) <;> simp [hres]

/-! ## Claim C3 -/

/-- C3: `rotateIfNeeded(error)` rotates only on a quota/rate-limit signal;
on any other error, or with a single-credential pool, it returns null and
leaves the state unchanged; when it rotates, the new `currentIdx` is
`(old + 1) mod poolSize` and the handle for that index is re-resolved (the
cache holds the freshly resolved entry, and the returned value is the new
model, or the exhaustion error when resolution failed). -/
theorem c3_rotate_spec (r : Resolver) (st : MState) (e : ErrJs) :
    ((isRateLimit e = false ∨ st.keys.length = 1) →
      rotateIfNeeded r st e = (st, Except.ok none))
    ∧ (isRateLimit e = true → st.keys.length ≠ 1 →
        (rotateIfNeeded r st e).1.currentIdx = (st.currentIdx + 1) % st.keys.length
        ∧ (rotateIfNeeded r st e).1.keys = st.keys
        ∧ cacheGet (rotateIfNeeded r st e).1 ((st.currentIdx + 1) % st.keys.length)
            = some (resolvedEntry r ((st.currentIdx + 1) % st.keys.length))
        ∧ (rotateIfNeeded r st e).2 =
            (match resolvedEntry r ((st.currentIdx + 1) % st.keys.length) with
             | none => Except.error exhaustedMsg
             | some m => Except.ok (some m))) := by
  constructor
  · intro h
    exact rotateIfNeeded_noop r st e h
  · intro h1 h2
    rw [rotateIfNeeded_fire r st e h1 h2]
    refine ⟨rfl, rfl, cacheGet_set_self _ _ _, rfl⟩

/-- Witness for C3 at concrete inputs: a non-rate-limit error is a no-op, and
a 429 error on a two-key pool rotates from index 0 to index 1. -/
theorem c3_witness :
    (rotateIfNeeded resAllOk (mkManager resAllOk ["a", "b"]) ⟨some 400, []⟩
      = (mkManager resAllOk ["a", "b"], Except.ok none))
    ∧ (rotateIfNeeded resAllOk (mkManager resAllOk ["a", "b"]) quotaErr).1.currentIdx = 1 := by
  constructor
  · exact (c3_rotate_spec resAllOk (mkManager resAllOk ["a", "b"]) ⟨some 400, []⟩).1
      (Or.inl (by decide))
  · have h := (c3_rotate_spec resAllOk (mkManager resAllOk ["a", "b"]) quotaErr).2
      (by decide) (by decide)
    exact h.1

/-! ## Claim C5 -/

theorem applyOp_keys (r : Resolver) (st : MState) (op : MgrOp) :
    (applyOp r st op).keys = st.keys := by
  cases op with
  | getModel => rfl
  | reinit =>
    show (initCurrentModel r st).keys = st.keys
    rw [initCurrentModel_eq]; rfl
  | tryFb =>
    show (tryFallback r st).keys = st.keys
    unfold tryFallback; split <;> rfl
  | rotate e =>
    show ((rotateIfNeeded r st e).1).keys = st.keys
    by_cases h : isRateLimit e = false ∨ st.keys.length = 1
    · rw [rotateIfNeeded_noop r st e h]
    · rw [rotateIfNeeded_fire r st e (by revert h; cases isRateLimit e <;> simp)
        (fun hc => h (Or.inr hc))]
      rfl

theorem applyOp_idx (r : Resolver) (st : MState) (op : MgrOp) (hlen : 0 < st.keys.length)
    (h : st.currentIdx < st.keys.length) :
    (applyOp r st op).currentIdx < st.keys.length := by
  cases op with
  | getModel => exact h
  | reinit =>
    show (initCurrentModel r st).currentIdx < st.keys.length
    rw [initCurrentModel_eq]; exact h
  | tryFb =>
    show (tryFallback r st).currentIdx < st.keys.length
    unfold tryFallback; split <;> exact h
  | rotate e =>
    show ((rotateIfNeeded r st e).1).currentIdx < st.keys.length
    by_cases hc : isRateLimit e = false ∨ st.keys.length = 1
    · rw [rotateIfNeeded_noop r st e hc]; exact h
    · rw [rotateIfNeeded_fire r st e (by revert hc; cases isRateLimit e <;> simp)
        (fun hx => hc (Or.inr hx))]
      exact Nat.mod_lt _ hlen

theorem applyOp_writes (r : Resolver) (st : MState) (op : MgrOp) :
    (applyOp r st op).writes = st.writes + resolvingCount st.keys.length [op] := by
  cases op with
  | getModel => simp [applyOp, resolvingCount]
  | reinit =>
    show (initCurrentModel r st).writes = _
    rw [initCurrentModel_eq]; simp [resolvingCount, cacheSet]
  | tryFb =>
    show (tryFallback r st).writes = _
    unfold tryFallback; split <;> simp [resolvingCount, cacheSet]
  | rotate e =>
    show ((rotateIfNeeded r st e).1).writes = _
    by_cases hc : isRateLimit e = false ∨ st.keys.length = 1
    · rw [rotateIfNeeded_noop r st e hc]
      have hnot : ¬ (isRateLimit e = true ∧ st.keys.length ≠ 1) := by
        rcases hc with hc | hc
        · intro hx; rw [hc] at hx; exact absurd hx.1 (by simp)
        · intro hx; exact hx.2 hc
      simp [resolvingCount, hnot]
    · have h1 : isRateLimit e = true := by revert hc; cases isRateLimit e <;> simp
      have h2 : st.keys.length ≠ 1 := fun hx => hc (Or.inr hx)
      rw [rotateIfNeeded_fire r st e h1 h2]
      simp [resolvingCount, h1, h2, cacheSet]

theorem runOps_invariant (r : Resolver) (ops : List MgrOp) :
    ∀ st : MState, 0 < st.keys.length → st.currentIdx < st.keys.length →
      (runOps r st ops).keys = st.keys
      ∧ (runOps r st ops).currentIdx < st.keys.length
      ∧ (runOps r st ops).writes = st.writes + resolvingCount st.keys.length ops := by
  induction ops with
  | nil => intro st h0 hi; exact ⟨rfl, hi, by simp [runOps, resolvingCount]⟩
  | cons op rest ih =>
    intro st h0 hi
    have hkeys := applyOp_keys r st op
    have hstep : runOps r st (op :: rest) = runOps r (applyOp r st op) rest := rfl
    have h0' : 0 < (applyOp r st op).keys.length := by rw [hkeys]; exact h0
    have hi' : (applyOp r st op).currentIdx < (applyOp r st op).keys.length := by
      rw [hkeys]; exact applyOp_idx r st op h0 hi
    obtain ⟨k1, k2, k3⟩ := ih (applyOp r st op) h0' hi'
    rw [hkeys] at k1 k2 k3
    rw [hstep]
    refine ⟨k1, k2, ?_⟩
    rw [k3, applyOp_writes r st op]
    have hsum : resolvingCount st.keys.length (op :: rest) =
        resolvingCount st.keys.length [op] + resolvingCount st.keys.length rest := by
      cases op <;> simp [resolvingCount]
    omega

/-- C5: over any sequence of manager operations from construction,
`currentIdx` stays in `[0, keys.length)`, and the total number of writes to
the handle cache is exactly one (the constructor's resolution) plus one per
explicit re-resolution (an `initCurrentModel`/`tryFallback` call or a
rotation that fires); so an index is rewritten only by explicit
re-resolution. -/
theorem c5_manager_invariants (r : Resolver) (keys : List String) (ops : List MgrOp)
    (h : 0 < keys.length) :
    (runOps r (mkManager r keys) ops).currentIdx < keys.length
    ∧ (runOps r (mkManager r keys) ops).keys = keys
    ∧ (runOps r (mkManager r keys) ops).writes = 1 + resolvingCount keys.length ops := by
  have hmk : mkManager r keys = cacheSet ⟨keys, 0, [], 0⟩ 0 (resolvedEntry r 0) := by
    rw [mkManager, initCurrentModel_eq]
  have hkeys : (mkManager r keys).keys = keys := by rw [hmk]; rfl
  have hidx : (mkManager r keys).currentIdx = 0 := by rw [hmk]; rfl
  have hw : (mkManager r keys).writes = 1 := by rw [hmk]; rfl
  have h0 : 0 < (mkManager r keys).keys.length := by rw [hkeys]; exact h
  have hi : (mkManager r keys).currentIdx < (mkManager r keys).keys.length := by
    rw [hkeys, hidx]; exact h
  obtain ⟨k1, k2, k3⟩ := runOps_invariant r ops (mkManager r keys) h0 hi
  rw [hkeys] at k1 k2 k3
  rw [hw] at k3
  exact ⟨k2, k1, by omega⟩

/-- Witness for C5: a concrete trace on a two-key pool (a fired rotation, a
lookup, and an ignored non-quota rotation) keeps the index in range and
performs exactly 1 + 1 cache writes. -/
theorem c5_witness :
    (runOps resAllOk (mkManager resAllOk ["a", "b"])
        [MgrOp.rotate quotaErr, MgrOp.getModel, MgrOp.rotate ⟨some 400, []⟩]).currentIdx < 2
    ∧ (runOps resAllOk (mkManager resAllOk ["a", "b"])
        [MgrOp.rotate quotaErr, MgrOp.getModel, MgrOp.rotate ⟨some 400, []⟩]).writes = 2 := by
  have h := c5_manager_invariants resAllOk ["a", "b"]
    [MgrOp.rotate quotaErr, MgrOp.getModel, MgrOp.rotate ⟨some 400, []⟩] (by decide)
  refine ⟨h.1, ?_⟩
  rw [h.2.2]
  decide

/-! ## Helper lemmas about the retry loop -/

theorem runLoop_stop (calls : Nat → CallOutcome) (r : Resolver) (f : Nat) (st : LoopSt)
    (h : loopCond st = false) :
    runLoop calls r f st = (LoopRes.noResponse, st) := by
  cases f <;> simp [runLoop, h]

theorem runLoop_ok (calls : Nat → CallOutcome) (r : Resolver) (f : Nat) (st : LoopSt)
    (t : List Char) (hc : loopCond st = true) (hcall : calls st.callCount = CallOutcome.ok t) :
    runLoop calls r (Nat.succ f) st =
      (LoopRes.success t, { st with callCount := st.callCount + 1 }) := by
  simp [runLoop, hc, hcall]

theorem runLoop_rot (calls : Nat → CallOutcome) (r : Resolver) (f : Nat) (st : LoopSt)
    (e : ErrJs) {m2 : MState} {h : ModelHandle}
    (hc : loopCond st = true) (hcall : calls st.callCount = CallOutcome.err e)
    (hrot : rotateIfNeeded r st.mgr e = (m2, Except.ok (some h))) :
    runLoop calls r (Nat.succ f) st =
      runLoop calls r f
        ⟨m2, some h, 0, st.callCount + 1, st.sleeps ++ [1000], st.rotations + 1⟩ := by
  simp [runLoop, hc, hcall, hrot]

theorem runLoop_trans (calls : Nat → CallOutcome) (r : Resolver) (f : Nat) (st : LoopSt)
    (e : ErrJs) {m2 : MState}
    (hc : loopCond st = true) (hcall : calls st.callCount = CallOutcome.err e)
    (hrot : rotateIfNeeded r st.mgr e = (m2, Except.ok none))
    (ht : transient e = true) (ha : st.attempts + 1 < maxAttempts) :
    runLoop calls r (Nat.succ f) st =
      runLoop calls r f
        ⟨m2, st.model, st.attempts + 1, st.callCount + 1,
          st.sleeps ++ [backoffMs (st.attempts + 1)], st.rotations⟩ := by
  simp [runLoop, hc, hcall, hrot, ht, ha]

theorem runLoop_break (calls : Nat → CallOutcome) (r : Resolver) (f : Nat) (st : LoopSt)
    (e : ErrJs) {m2 : MState}
    (hc : loopCond st = true) (hcall : calls st.callCount = CallOutcome.err e)
    (hrot : rotateIfNeeded r st.mgr e = (m2, Except.ok none))
    (hb : (transient e && decide (st.attempts + 1 < maxAttempts)) = false) :
    runLoop calls r (Nat.succ f) st =
      (LoopRes.noResponse,
        ⟨m2, st.model, st.attempts + 1, st.callCount + 1, st.sleeps, st.rotations⟩) := by
  simp [runLoop, hc, hcall, hrot, hb]

/-- With a single-key pool and an endless stream of the same transient error,
the loop consumes exactly the five-attempt budget, sleeping the exponential
backoff delays, and ends with no response and no rotation. -/
theorem loop_len1_transient_run (e : ErrJs) (ht : transient e = true)
    (calls : Nat → CallOutcome) (hcalls : ∀ n, calls n = CallOutcome.err e)
    (r : Resolver) (mgr : MState) (hkeys : mgr.keys.length = 1)
    (cm : ModelHandle) (fuel : Nat) (hf : 5 ≤ fuel) :
    runLoop calls r fuel ⟨mgr, some cm, 0, 0, [], 0⟩ =
      (LoopRes.noResponse,
        ⟨mgr, some cm, 5, 5, [backoffMs 1, backoffMs 2, backoffMs 3, backoffMs 4], 0⟩) := by
  have hrot : rotateIfNeeded r mgr e = (mgr, Except.ok none) :=
    rotateIfNeeded_noop r mgr e (Or.inr hkeys)
  have h5 : fuel = Nat.succ (Nat.succ (Nat.succ (Nat.succ (Nat.succ (fuel - 5))))) := by omega
  have e1 : runLoop calls r (Nat.succ (Nat.succ (Nat.succ (Nat.succ (Nat.succ (fuel - 5))))))
      ⟨mgr, some cm, 0, 0, [], 0⟩ =
      runLoop calls r (Nat.succ (Nat.succ (Nat.succ (Nat.succ (fuel - 5)))))
      ⟨mgr, some cm, 1, 1, [backoffMs 1], 0⟩ :=
    runLoop_trans calls r _ ⟨mgr, some cm, 0, 0, [], 0⟩ e rfl (hcalls 0) hrot ht
      (show 0 + 1 < maxAttempts by decide)
  have e2 : runLoop calls r (Nat.succ (Nat.succ (Nat.succ (Nat.succ (fuel - 5)))))
      ⟨mgr, some cm, 1, 1, [backoffMs 1], 0⟩ =
      runLoop calls r (Nat.succ (Nat.succ (Nat.succ (fuel - 5))))
      ⟨mgr, some cm, 2, 2, [backoffMs 1, backoffMs 2], 0⟩ :=
    runLoop_trans calls r _ ⟨mgr, some cm, 1, 1, [backoffMs 1], 0⟩ e rfl (hcalls 1) hrot ht
      (show 1 + 1 < maxAttempts by decide)
  have e3 : runLoop calls r (Nat.succ (Nat.succ (Nat.succ (fuel - 5))))
      ⟨mgr, some cm, 2, 2, [backoffMs 1, backoffMs 2], 0⟩ =
      runLoop calls r (Nat.succ (Nat.succ (fuel - 5)))
      ⟨mgr, some cm, 3, 3, [backoffMs 1, backoffMs 2, backoffMs 3], 0⟩ :=
    runLoop_trans calls r _ ⟨mgr, some cm, 2, 2, [backoffMs 1, backoffMs 2], 0⟩ e rfl
      (hcalls 2) hrot ht (show 2 + 1 < maxAttempts by decide)
  have e4 : runLoop calls r (Nat.succ (Nat.succ (fuel - 5)))
      ⟨mgr, some cm, 3, 3, [backoffMs 1, backoffMs 2, backoffMs 3], 0⟩ =
      runLoop calls r (Nat.succ (fuel - 5))
      ⟨mgr, some cm, 4, 4, [backoffMs 1, backoffMs 2, backoffMs 3, backoffMs 4], 0⟩ :=
    runLoop_trans calls r _ ⟨mgr, some cm, 3, 3, [backoffMs 1, backoffMs 2, backoffMs 3], 0⟩ e
      rfl (hcalls 3) hrot ht (show 3 + 1 < maxAttempts by decide)
  have e5 : runLoop calls r (Nat.succ (fuel - 5))
      ⟨mgr, some cm, 4, 4, [backoffMs 1, backoffMs 2, backoffMs 3, backoffMs 4], 0⟩ =
      (LoopRes.noResponse,
        ⟨mgr, some cm, 5, 5, [backoffMs 1, backoffMs 2, backoffMs 3, backoffMs 4], 0⟩) :=
    runLoop_break calls r _
      ⟨mgr, some cm, 4, 4, [backoffMs 1, backoffMs 2, backoffMs 3, backoffMs 4], 0⟩ e rfl
      (hcalls 4) hrot
      (show (transient e && decide (4 + 1 < maxAttempts)) = false by rw [ht]; decide)
  rw [h5, e1, e2, e3, e4, e5]

/-- With a single-key pool the loop never makes more calls than the
remaining attempt budget, whatever the errors are. -/
theorem runLoop_len1_callBound (calls : Nat → CallOutcome) (r : Resolver) :
    ∀ (f : Nat) (st : LoopSt), st.mgr.keys.length = 1 →
      (runLoop calls r f st).2.callCount ≤ st.callCount + (maxAttempts - st.attempts) := by
  intro f
  induction f with
  | zero =>
    intro st h
    unfold runLoop
    split <;> simp
  | succ f ih =>
    intro st h
    by_cases hc : loopCond st = true
    · have hc2 := hc
      simp only [loopCond, Bool.and_eq_true, decide_eq_true_eq] at hc2
      have hattempts : st.attempts < maxAttempts := hc2.1
      cases hcall : calls st.callCount with
      | ok t =>
        rw [runLoop_ok calls r f st t hc hcall]
        simp
        omega
      | err e =>
        have hrot : rotateIfNeeded r st.mgr e = (st.mgr, Except.ok none) :=
          rotateIfNeeded_noop r st.mgr e (Or.inr h)
        by_cases hb : (transient e && decide (st.attempts + 1 < maxAttempts)) = true
        · have hb2 := hb
          simp only [Bool.and_eq_true, decide_eq_true_eq] at hb2
          have ht : transient e = true := hb2.1
          have ha : st.attempts + 1 < maxAttempts := hb2.2
          rw [runLoop_trans calls r f st e hc hcall hrot ht ha]
          have hih := ih ⟨st.mgr, st.model, st.attempts + 1, st.callCount + 1,
            st.sleeps ++ [backoffMs (st.attempts + 1)], st.rotations⟩ h
          simp at hih ⊢
          omega
        · rw [runLoop_break calls r f st e hc hcall hrot
            (by revert hb; cases htb : (transient e && decide (st.attempts + 1 < maxAttempts)) <;> simp)]
          simp
          omega
    · rw [runLoop_stop calls r _ st (by revert hc; cases loopCond st <;> simp)]
      exact Nat.le_add_right _ _

/-! ## Claim C1 -/

/-- C1 amended: with a pool of `N ≥ 2` keys whose handles always re-resolve,
and every external call failing with a quota/rate-limit error, the retry
loop does NOT terminate: after any number `f` of iterations it is still
eligible to run, having made `f` calls and `f` rotations, cycling the
current index through all credentials modulo `N`; in particular the total
number of calls is not bounded by `N × maxAttempts`. -/
theorem c1_rotation_cycles_unbounded (e : ErrJs) (he : isRateLimit e = true)
    (r : Resolver) (hr : ∀ i, r.primaryOk i = true)
    (keys : List String) (hk : 2 ≤ keys.length) :
    ∀ (f i : Nat), i < keys.length →
    ∀ (cache : List (Nat × Option ModelHandle)) (w cc : Nat) (sl : List Nat) (rot : Nat),
      (runLoop (fun _ => CallOutcome.err e) r f
          ⟨⟨keys, i, cache, w⟩, some ⟨i, true⟩, 0, cc, sl, rot⟩).1 = LoopRes.fuelOut
      ∧ (runLoop (fun _ => CallOutcome.err e) r f
          ⟨⟨keys, i, cache, w⟩, some ⟨i, true⟩, 0, cc, sl, rot⟩).2.callCount = cc + f
      ∧ (runLoop (fun _ => CallOutcome.err e) r f
          ⟨⟨keys, i, cache, w⟩, some ⟨i, true⟩, 0, cc, sl, rot⟩).2.rotations = rot + f
      ∧ (runLoop (fun _ => CallOutcome.err e) r f
          ⟨⟨keys, i, cache, w⟩, some ⟨i, true⟩, 0, cc, sl, rot⟩).2.mgr.currentIdx
          = (i + f) % keys.length := by
  intro f
  induction f with
  | zero =>
    intro i hi cache w cc sl rot
    have hstop : runLoop (fun _ => CallOutcome.err e) r 0
        ⟨⟨keys, i, cache, w⟩, some ⟨i, true⟩, 0, cc, sl, rot⟩ =
        (LoopRes.fuelOut, ⟨⟨keys, i, cache, w⟩, some ⟨i, true⟩, 0, cc, sl, rot⟩) := rfl
    rw [hstop]
    exact ⟨rfl, by simp, by simp, by simp [Nat.mod_eq_of_lt hi]⟩
  | succ f ih =>
    intro i hi cache w cc sl rot
    have hlen : keys.length ≠ 1 := by omega
    have hrot : rotateIfNeeded r (⟨keys, i, cache, w⟩ : MState) e =
        (⟨keys, (i + 1) % keys.length,
            ((i + 1) % keys.length, some ⟨(i + 1) % keys.length, true⟩) :: cache, w + 1⟩,
          Except.ok (some ⟨(i + 1) % keys.length, true⟩)) := by
      rw [rotateIfNeeded_fire r _ e he hlen]
      simp [resolvedEntry, hr, cacheSet]
    rw [runLoop_rot (fun _ => CallOutcome.err e) r f
      ⟨⟨keys, i, cache, w⟩, some ⟨i, true⟩, 0, cc, sl, rot⟩ e rfl rfl hrot]
    have hih := ih ((i + 1) % keys.length) (Nat.mod_lt _ (by omega))
      (((i + 1) % keys.length, some ⟨(i + 1) % keys.length, true⟩) :: cache) (w + 1)
      (cc + 1) (sl ++ [1000]) (rot + 1)
    obtain ⟨p1, p2, p3, p4⟩ := hih
    refine ⟨p1, by rw [p2]; omega, by rw [p3]; omega, ?_⟩
    rw [p4, Nat.mod_add_mod]
    have harith : i + 1 + f = i + (f + 1) := by omega
    rw [harith]

/-- Witness for the amended C1 at a concrete two-key pool, concrete quota
error, and 11 iterations. -/
theorem c1_witness :
    (runLoop (fun _ => CallOutcome.err quotaErr) resAllOk 11
        ⟨⟨["a", "b"], 0, [(0, some ⟨0, true⟩)], 1⟩, some ⟨0, true⟩, 0, 0, [], 0⟩).1
      = LoopRes.fuelOut
    ∧ (runLoop (fun _ => CallOutcome.err quotaErr) resAllOk 11
        ⟨⟨["a", "b"], 0, [(0, some ⟨0, true⟩)], 1⟩, some ⟨0, true⟩, 0, 0, [], 0⟩).2.callCount
      = 0 + 11
    ∧ (runLoop (fun _ => CallOutcome.err quotaErr) resAllOk 11
        ⟨⟨["a", "b"], 0, [(0, some ⟨0, true⟩)], 1⟩, some ⟨0, true⟩, 0, 0, [], 0⟩).2.rotations
      = 0 + 11
    ∧ (runLoop (fun _ => CallOutcome.err quotaErr) resAllOk 11
        ⟨⟨["a", "b"], 0, [(0, some ⟨0, true⟩)], 1⟩, some ⟨0, true⟩, 0, 0, [], 0⟩).2.mgr.currentIdx
      = (0 + 11) % (["a", "b"] : List String).length :=
  c1_rotation_cycles_unbounded quotaErr (by decide) resAllOk (fun _ => rfl) ["a", "b"]
    (by decide) 11 0 (by decide) [(0, some ⟨0, true⟩)] 1 0 [] 0

/-- Counterexample to C1 as stated: with a two-key pool and nothing but
quota errors, after 11 external calls (more than `N × maxAttempts = 10`)
the loop is still eligible to continue, having rotated 11 times — it has
not terminated with the exhaustion error. -/
theorem c1_counterexample :
    (runLoop allQuotaCalls resAllOk 11
        ⟨mkManager resAllOk ["a", "b"], getCurrentModel (mkManager resAllOk ["a", "b"]),
          0, 0, [], 0⟩).1 = LoopRes.fuelOut
    ∧ (runLoop allQuotaCalls resAllOk 11
        ⟨mkManager resAllOk ["a", "b"], getCurrentModel (mkManager resAllOk ["a", "b"]),
          0, 0, [], 0⟩).2.callCount = 11
    ∧ (runLoop allQuotaCalls resAllOk 11
        ⟨mkManager resAllOk ["a", "b"], getCurrentModel (mkManager resAllOk ["a", "b"]),
          0, 0, [], 0⟩).2.rotations = 11
    ∧ maxAttempts * (["a", "b"] : List String).length < 11 := by
  decide

/-! ## Claim C2 -/

/-- C2 amended: with a single-key pool, a quota error never rotates (the
rotation count stays zero and the manager is untouched), but it is NOT an
immediate failure: being also classified transient, it is retried with
exponential backoff on the same credential until the 5-attempt budget is
spent, and only then does the loop end with no response (the terminal
`GenerationFailed`). -/
theorem c2_single_key_quota_retries (e : ErrJs) (he : isRateLimit e = true)
    (ht : transient e = true) (calls : Nat → CallOutcome)
    (hcalls : ∀ n, calls n = CallOutcome.err e) (r : Resolver) (mgr : MState)
    (hkeys : mgr.keys.length = 1) (cm : ModelHandle) (fuel : Nat) (hf : 5 ≤ fuel) :
    runLoop calls r fuel ⟨mgr, some cm, 0, 0, [], 0⟩ =
      (LoopRes.noResponse,
        ⟨mgr, some cm, 5, 5, [backoffMs 1, backoffMs 2, backoffMs 3, backoffMs 4], 0⟩) :=
  loop_len1_transient_run e ht calls hcalls r mgr hkeys cm fuel hf

/-- Witness for the amended C2 at a concrete single-key pool and 429 quota
error. -/
theorem c2_witness :
    runLoop allQuotaCalls resAllOk 7
        ⟨mkManager resAllOk ["k"], some ⟨0, true⟩, 0, 0, [], 0⟩ =
      (LoopRes.noResponse,
        ⟨mkManager resAllOk ["k"], some ⟨0, true⟩, 5, 5,
          [backoffMs 1, backoffMs 2, backoffMs 3, backoffMs 4], 0⟩) :=
  c2_single_key_quota_retries quotaErr (by decide) (by decide) allQuotaCalls
    (fun _ => rfl) resAllOk (mkManager resAllOk ["k"]) (by decide) ⟨0, true⟩ 7 (by decide)

/-- Counterexample to C2 as stated: on a single-key pool with a 429 quota
error the run makes 5 external calls — four retries beyond the first
attempt — before failing, rather than failing immediately after one. -/
theorem c2_counterexample :
    (runLoop allQuotaCalls resAllOk 10
        ⟨mkManager resAllOk ["k"], getCurrentModel (mkManager resAllOk ["k"]),
          0, 0, [], 0⟩).2.callCount = 5
    ∧ (runLoop allQuotaCalls resAllOk 10
        ⟨mkManager resAllOk ["k"], getCurrentModel (mkManager resAllOk ["k"]),
          0, 0, [], 0⟩).2.rotations = 0
    ∧ (runLoop allQuotaCalls resAllOk 10
        ⟨mkManager resAllOk ["k"], getCurrentModel (mkManager resAllOk ["k"]),
          0, 0, [], 0⟩).1 = LoopRes.noResponse
    ∧ isRateLimit quotaErr = true
    ∧ 1 < (runLoop allQuotaCalls resAllOk 10
        ⟨mkManager resAllOk ["k"], getCurrentModel (mkManager resAllOk ["k"]),
          0, 0, [], 0⟩).2.callCount := by
  decide

/-! ## Claim C4 -/

/-- C4: in the catch branch the quota/rotation check comes first: whenever
rotation yields a new handle the attempt counter is reset to zero and the
loop continues after a fixed 1000 ms pause (regardless of whether the error
is also transient); on a plain transient retry the attempt counter is
incremented, never reset, and the pause is the exponential backoff — the
two paths keep distinct budgets. -/
theorem c4_catch_branch_policy (calls : Nat → CallOutcome) (r : Resolver) (f : Nat)
    (st : LoopSt) (e : ErrJs) (m2 : MState)
    (hc : loopCond st = true) (hcall : calls st.callCount = CallOutcome.err e) :
    (∀ h : ModelHandle, rotateIfNeeded r st.mgr e = (m2, Except.ok (some h)) →
        runLoop calls r (Nat.succ f) st =
          runLoop calls r f
            ⟨m2, some h, 0, st.callCount + 1, st.sleeps ++ [1000], st.rotations + 1⟩)
    ∧ (rotateIfNeeded r st.mgr e = (m2, Except.ok none) → transient e = true →
        st.attempts + 1 < maxAttempts →
        runLoop calls r (Nat.succ f) st =
          runLoop calls r f
            ⟨m2, st.model, st.attempts + 1, st.callCount + 1,
              st.sleeps ++ [backoffMs (st.attempts + 1)], st.rotations⟩) := by
  constructor
  · intro h hrot
    exact runLoop_rot calls r f st e hc hcall hrot
  · intro hrot ht ha
    exact runLoop_trans calls r f st e hc hcall hrot ht ha

/-- Witness for C4: the rotation path on a two-key pool (counter reset, 1 s
pause), and the transient path on a single-key pool (counter incremented to
1, exponential pause). -/
theorem c4_witness :
    (runLoop allQuotaCalls resAllOk 4
        ⟨mkManager resAllOk ["a", "b"], some ⟨0, true⟩, 0, 0, [], 0⟩ =
      runLoop allQuotaCalls resAllOk 3
        ⟨⟨["a", "b"], 1, [(1, some ⟨1, true⟩), (0, some ⟨0, true⟩)], 2⟩,
          some ⟨1, true⟩, 0, 1, [1000], 1⟩)
    ∧ (runLoop allQuotaCalls resAllOk 4
        ⟨mkManager resAllOk ["k"], some ⟨0, true⟩, 0, 0, [], 0⟩ =
      runLoop allQuotaCalls resAllOk 3
        ⟨mkManager resAllOk ["k"], some ⟨0, true⟩, 1, 1, [backoffMs 1], 0⟩) := by
  constructor
  · exact (c4_catch_branch_policy allQuotaCalls resAllOk 3
      ⟨mkManager resAllOk ["a", "b"], some ⟨0, true⟩, 0, 0, [], 0⟩ quotaErr
      ⟨["a", "b"], 1, [(1, some ⟨1, true⟩), (0, some ⟨0, true⟩)], 2⟩ rfl rfl).1
      ⟨1, true⟩ rfl
  · exact (c4_catch_branch_policy allQuotaCalls resAllOk 3
      ⟨mkManager resAllOk ["k"], some ⟨0, true⟩, 0, 0, [], 0⟩ quotaErr
      (mkManager resAllOk ["k"]) rfl rfl).2 rfl (by decide)
      (show 0 + 1 < maxAttempts by decide)

/-! ## Claim C6 -/

/-- C6: transient backoff.  (a) With a single-credential pool the loop never
makes more calls than the attempt budget; (b) a run of identical transient
errors on a single key sleeps exactly `2^1 .. 2^4` seconds (in ms) and
makes exactly `maxAttempts` calls; (c) the backoff delay `2^attempts`
is strictly increasing in the attempt number, (d) in particular along the
actual slept sequence. -/
theorem c6_backoff_spec :
    (∀ (calls : Nat → CallOutcome) (r : Resolver) (f : Nat) (st : LoopSt),
       st.mgr.keys.length = 1 →
       (runLoop calls r f st).2.callCount ≤ st.callCount + (maxAttempts - st.attempts))
    ∧ (∀ e : ErrJs, transient e = true →
       ∀ calls : Nat → CallOutcome, (∀ n, calls n = CallOutcome.err e) →
       ∀ (r : Resolver) (mgr : MState), mgr.keys.length = 1 →
       ∀ (cm : ModelHandle) (fuel : Nat), 5 ≤ fuel →
         (runLoop calls r fuel ⟨mgr, some cm, 0, 0, [], 0⟩).2.sleeps =
           [backoffMs 1, backoffMs 2, backoffMs 3, backoffMs 4]
         ∧ (runLoop calls r fuel ⟨mgr, some cm, 0, 0, [], 0⟩).2.callCount = maxAttempts)
    ∧ (∀ a b : Nat, a < b → backoffMs a < backoffMs b)
    ∧ List.Chain' (· < ·) [backoffMs 1, backoffMs 2, backoffMs 3, backoffMs 4] := by
  refine ⟨runLoop_len1_callBound, ?_, ?_, by norm_num [List.chain'_cons, backoffMs]⟩
  · intro e ht calls hcalls r mgr hkeys cm fuel hf
    rw [loop_len1_transient_run e ht calls hcalls r mgr hkeys cm fuel hf]
    exact ⟨rfl, rfl⟩
  · intro a b hab
    have hpow : 2 ^ a < 2 ^ b := Nat.pow_lt_pow_right (by omega) hab
    unfold backoffMs
    omega

/-- Witness for C6 at concrete inputs: a single-key pool with persistent 503
errors sleeps 2000, 4000, 8000, 16000 ms and makes exactly 5 calls. -/
theorem c6_witness :
    (runLoop (fun _ => CallOutcome.err ⟨some 503, []⟩) resAllOk 9
        ⟨mkManager resAllOk ["k"], some ⟨0, true⟩, 0, 0, [], 0⟩).2.sleeps =
      [backoffMs 1, backoffMs 2, backoffMs 3, backoffMs 4]
    ∧ (runLoop (fun _ => CallOutcome.err ⟨some 503, []⟩) resAllOk 9
        ⟨mkManager resAllOk ["k"], some ⟨0, true⟩, 0, 0, [], 0⟩).2.callCount = maxAttempts
    ∧ backoffMs 2 < backoffMs 3 := by
  have h := c6_backoff_spec
  have h2 := h.2.1 ⟨some 503, []⟩ (by decide) (fun _ => CallOutcome.err ⟨some 503, []⟩)
    (fun _ => rfl) resAllOk (mkManager resAllOk ["k"]) (by decide) ⟨0, true⟩ 9 (by decide)
  exact ⟨h2.1, h2.2, h.2.2.1 2 3 (by decide)⟩

/-! ## Claim C9 -/

/-- C9: when the rotation manager has no usable current handle the route
fails immediately with `ModelUnavailable` before any other processing: no
external call is made, no retry is attempted, no rotation occurs, and the
manager state is untouched. -/
theorem c9_model_unavailable_first (env : RouteEnv) (mgr : MState)
    (h : getCurrentModel mgr = none) :
    generateFlashcardsRoute env mgr =
      (RouteRes.modelUnavailable, ⟨mgr, none, 0, 0, [], 0⟩) := by
  unfold generateFlashcardsRoute
  rw [h]

def envSimple : RouteEnv :=
  ⟨some ⟨appPdf, 100⟩, some ("x".toList), fun _ => CallOutcome.ok ("[]".toList), resAllOk, 9⟩

/-- Witness for C9: a manager whose key resolves neither model yields
`ModelUnavailable` with zero calls and zero rotations. -/
theorem c9_witness :
    generateFlashcardsRoute envSimple (mkManager resAllBad ["k"]) =
      (RouteRes.modelUnavailable, ⟨mkManager resAllBad ["k"], none, 0, 0, [], 0⟩) :=
  c9_model_unavailable_first envSimple (mkManager resAllBad ["k"]) (by decide)

/-! ## Claim C10 -/

/-- C10: when the first external call succeeds with an empty string, the
loop breaks immediately (the success break does not test for non-empty
text): exactly one call is made, no rotation and no further attempt occurs
even though the attempt budget is untouched — and the route then responds
with the terminal `GenerationFailed` error because the empty `rawResponse`
is falsy. -/
theorem c10_empty_success_genfailed (env : RouteEnv) (mgr : MState) (cm : ModelHandle)
    (pf : PdfFileJs) (txt : List Char)
    (hcm : getCurrentModel mgr = some cm)
    (hpdf : env.pdfFile = some pf) (hmime : pf.mimetype = appPdf)
    (hsize : pf.size ≤ 5 * 1024 * 1024)
    (hext : env.extractRes = some txt) (htxt : (trimChars txt).isEmpty = false)
    (hcall : env.calls 0 = CallOutcome.ok []) (hfuel : 1 ≤ env.fuel) :
    runLoop env.calls env.resolver env.fuel ⟨mgr, some cm, 0, 0, [], 0⟩ =
      (LoopRes.success [], ⟨mgr, some cm, 0, 1, [], 0⟩)
    ∧ generateFlashcardsRoute env mgr = (RouteRes.genFailed, ⟨mgr, some cm, 0, 1, [], 0⟩) := by
  have hloop : runLoop env.calls env.resolver env.fuel ⟨mgr, some cm, 0, 0, [], 0⟩ =
      (LoopRes.success [], ⟨mgr, some cm, 0, 1, [], 0⟩) := by
    have h1 : env.fuel = Nat.succ (env.fuel - 1) := by omega
    rw [h1]
    exact runLoop_ok env.calls env.resolver _ ⟨mgr, some cm, 0, 0, [], 0⟩ [] rfl hcall
  have hs : ¬ (5 * 1024 * 1024 < pf.size) := by omega
  refine ⟨hloop, ?_⟩
  unfold generateFlashcardsRoute
  rw [hcm, hpdf]
  simp only [hmime, hext, htxt, hloop, hs, ne_eq, not_true_eq_false, if_false,
    Bool.false_eq_true, List.isEmpty_nil, if_true]

def envEmptyResp : RouteEnv :=
  ⟨some ⟨appPdf, 100⟩, some ("x".toList), fun _ => CallOutcome.ok [], resAllOk, 9⟩

/-- Witness for C10 at a concrete request: the empty-string success costs
one call and the route answers `GenerationFailed`. -/
theorem c10_witness :
    generateFlashcardsRoute envEmptyResp (mkManager resAllOk ["a", "b"]) =
      (RouteRes.genFailed, ⟨mkManager resAllOk ["a", "b"], some ⟨0, true⟩, 0, 1, [], 0⟩) :=
  (c10_empty_success_genfailed envEmptyResp (mkManager resAllOk ["a", "b"]) ⟨0, true⟩
    ⟨appPdf, 100⟩ ("x".toList) (by decide) rfl rfl (by norm_num) rfl (by decide) rfl
    (by decide)).2

/-- Sanity check of the JSON parser: numbers parse to the expected exact
rationals. -/
theorem parseJson_number_sanity :
    (match parseJson ("[1, 2.5, -3e2]".toList) with
     | some (Json.arr l) =>
       l.map (fun j => match j with | Json.num q => (q.num, q.den) | _ => (0, 0))
     | _ => []) = [(1, 1), (5, 2), (-300, 1)] := rfl

/-- Sanity check of the flashcard pipeline on a well-formed payload. -/
theorem validateRawFlash_sanity :
    exOk (validateRawFlash
      ("[ \x7b\"question\": \"q\", \"answer\": \"a\"\x7d ]".toList)) = true := rfl

/-! ## Claim C7: the response validators -/

/-- The field `k` holds a string with non-empty trim. -/
def NonemptyStrField (c : Json) (k : List Char) : Prop :=
  ∃ s, getField c k = some (Json.str s) ∧ trimChars s ≠ []

/-- The field `k` holds a string (possibly empty). -/
def StrFieldOk (c : Json) (k : List Char) : Prop :=
  ∃ s, getField c k = some (Json.str s)

/-- Declarative reading of the flashcard element check. -/
def FlashElemOk (c : Json) : Prop :=
  NonemptyStrField c qKey ∧ NonemptyStrField c aKey

/-- Declarative reading of the quiz element check: `question` need only be a
string, `options` need only be an array of exactly 4 values (their contents
are not inspected), `correctAnswer` must be an integer in 0..3. -/
def QuizElemOk (q : Json) : Prop :=
  StrFieldOk q qKey
  ∧ (∃ os, getField q optKey = some (Json.arr os) ∧ os.length = 4)
  ∧ (∃ v : Rat, getField q caKey = some (Json.num v) ∧ v.den = 1 ∧ 0 ≤ v.num ∧ v.num ≤ 3)

def FlashPayloadOk (j : Json) : Prop :=
  ∃ xs, j = Json.arr xs ∧ xs ≠ [] ∧ ∀ c ∈ xs, FlashElemOk c

def QuizPayloadOk (j : Json) : Prop :=
  ∃ xs, j = Json.arr xs ∧ xs ≠ [] ∧ ∀ q ∈ xs, QuizElemOk q

theorem flashElemCheck_ok_iff (i : Nat) (c : Json) :
    flashElemCheck i c = Except.ok () ↔ FlashElemOk c := by
  constructor
  · intro h
    unfold flashElemCheck at h
    split at h
    case h_2 => exact absurd h (by simp)
    case h_1 s hs =>
      split at h
      · exact absurd h (by simp)
      · split at h
        case h_2 => exact absurd h (by simp)
        case h_1 t ht =>
          split at h
          · exact absurd h (by simp)
          · exact ⟨⟨s, hs, by assumption⟩, ⟨t, ht, by assumption⟩⟩
  · rintro ⟨⟨s, hs, hts⟩, ⟨t, ht, htt⟩⟩
    simp [flashElemCheck, hs, ht, hts, htt]

theorem flashElemCheck_badField (i : Nat) (c : Json) (e : VErr)
    (h : flashElemCheck i c = Except.error e) : ∃ fn, e = VErr.badField i fn := by
  unfold flashElemCheck at h
  split at h
  case h_2 => exact ⟨FieldName.question, by simpa using h.symm⟩
  case h_1 s hs =>
    split at h
    · exact ⟨FieldName.question, by simpa using h.symm⟩
    · split at h
      case h_2 => exact ⟨FieldName.answer, by simpa using h.symm⟩
      case h_1 t ht =>
        split at h
        · exact ⟨FieldName.answer, by simpa using h.symm⟩
        · exact absurd h (by simp)

theorem quizElemCheck_ok_iff (i : Nat) (q : Json) :
    quizElemCheck i q = Except.ok () ↔ QuizElemOk q := by
  constructor
  · intro h
    unfold quizElemCheck at h
    split at h
    case h_2 => exact absurd h (by simp)
    case h_1 s hs =>
      split at h
      case h_2 => exact absurd h (by simp)
      case h_1 os hos =>
        split at h
        · split at h
          case h_2 => exact absurd h (by simp)
          case h_1 v hv =>
            split at h
            · exact ⟨⟨s, hs⟩, ⟨os, hos, by assumption⟩,
                ⟨v, hv, by assumption⟩⟩
            · exact absurd h (by simp)
        · exact absurd h (by simp)
  · rintro ⟨⟨s, hs⟩, ⟨os, hos, hlen⟩, ⟨v, hv, hint⟩⟩
    simp [quizElemCheck, hs, hos, hlen, hv, hint]

theorem quizElemCheck_badField (i : Nat) (q : Json) (e : VErr)
    (h : quizElemCheck i q = Except.error e) : ∃ fn, e = VErr.badField i fn := by
  unfold quizElemCheck at h
  split at h
  case h_2 => exact ⟨FieldName.question, by simpa using h.symm⟩
  case h_1 s hs =>
    split at h
    case h_2 => exact ⟨FieldName.options, by simpa using h.symm⟩
    case h_1 os hos =>
      split at h
      · split at h
        case h_2 => exact ⟨FieldName.correctAnswer, by simpa using h.symm⟩
        case h_1 v hv =>
          split at h
          · exact absurd h (by simp)
          · exact ⟨FieldName.correctAnswer, by simpa using h.symm⟩
      · exact ⟨FieldName.options, by simpa using h.symm⟩

theorem checkElems_ok_iff (chk : Nat → Json → Except VErr Unit) (P : Json → Prop)
    (hP : ∀ i c, chk i c = Except.ok () ↔ P c) :
    ∀ (i : Nat) (xs : List Json), checkElems chk i xs = Except.ok () ↔ ∀ c ∈ xs, P c := by
  intro i xs
  induction xs generalizing i with
  | nil => simp [checkElems]
  | cons c cs ih =>
    constructor
    · intro h
      cases hchk : chk i c with
      | ok u =>
        cases u
        simp only [checkElems, hchk] at h
        intro d hd
        rcases List.mem_cons.1 hd with hd | hd
        · rw [hd]; exact (hP i c).1 hchk
        · exact ((ih (i + 1)).1 h) d hd
      | error e2 =>
        simp only [checkElems, hchk] at h
        exact absurd h (by simp)
    · intro h
      have h1 : chk i c = Except.ok () := (hP i c).2 (h c (by simp))
      simp only [checkElems, h1]
      exact (ih (i + 1)).2 (fun d hd => h d (by simp [hd]))

theorem checkElems_err (chk : Nat → Json → Except VErr Unit) (P : Json → Prop)
    (hP : ∀ i c, chk i c = Except.ok () ↔ P c)
    (hPe : ∀ i c e, chk i c = Except.error e → ∃ fn, e = VErr.badField i fn) :
    ∀ (xs : List Json) (i n : Nat) (fn : FieldName),
      checkElems chk i xs = Except.error (VErr.badField n fn) →
      ∃ k c, n = i + k ∧ xs[k]? = some c ∧ ¬ P c
        ∧ ∀ m, m < k → ∃ d, xs[m]? = some d ∧ P d := by
  intro xs
  induction xs with
  | nil => intro i n fn h; simp [checkElems] at h
  | cons c cs ih =>
    intro i n fn h
    cases hchk : chk i c with
    | ok u =>
      cases u
      simp only [checkElems, hchk] at h
      obtain ⟨k, d, hn, hget, hnP, hpre⟩ := ih (i + 1) n fn h
      refine ⟨k + 1, d, by omega, by simpa using hget, hnP, ?_⟩
      intro m hm
      cases m with
      | zero => exact ⟨c, by simp, (hP i c).1 hchk⟩
      | succ m2 =>
        obtain ⟨d2, hd2, hPd2⟩ := hpre m2 (by omega)
        exact ⟨d2, by simpa using hd2, hPd2⟩
    | error e2 =>
      simp only [checkElems, hchk] at h
      have he2 : e2 = VErr.badField n fn := by simpa using h
      obtain ⟨fn2, hfn2⟩ := hPe i c e2 hchk
      rw [hfn2] at he2
      have hni : n = i ∧ fn = fn2 := by
        have := he2
        injection this with h1 h2
        exact ⟨h1.symm, h2.symm⟩
      refine ⟨0, c, by omega, by simp, ?_, by intro m hm; omega⟩
      intro pc
      rw [(hP i c).2 pc] at hchk
      exact absurd hchk (by simp)

/-- C7 amended: the flashcard validator accepts exactly the non-empty arrays
whose every element has string `question` and `answer` fields with
non-empty trim; the quiz validator accepts exactly the non-empty arrays
whose every element has a string `question` (possibly empty), an `options`
array of exactly 4 values (contents not inspected), and an integer
`correctAnswer` in 0..3; and any `badField` failure reports the index of
the first offending element. -/
theorem c7_validator_spec (j : Json) :
    (exOk (validateFlash j) = true ↔ FlashPayloadOk j)
    ∧ (exOk (validateQuiz j) = true ↔ QuizPayloadOk j)
    ∧ (∀ (xs : List Json) (n : Nat) (fn : FieldName), j = Json.arr xs →
        validateFlash j = Except.error (VErr.badField n fn) →
        ∃ c, xs[n]? = some c ∧ ¬ FlashElemOk c
          ∧ ∀ m, m < n → ∃ d, xs[m]? = some d ∧ FlashElemOk d)
    ∧ (∀ (xs : List Json) (n : Nat) (fn : FieldName), j = Json.arr xs →
        validateQuiz j = Except.error (VErr.badField n fn) →
        ∃ c, xs[n]? = some c ∧ ¬ QuizElemOk c
          ∧ ∀ m, m < n → ∃ d, xs[m]? = some d ∧ QuizElemOk d) := by
  refine ⟨?_, ?_, ?_, ?_⟩
  · constructor
    · intro h
      cases j with
      | arr xs =>
        by_cases h0 : xs.length = 0
        · simp [validateFlash, h0, exOk] at h
        · have hne : xs ≠ [] := by
            intro hx
            rw [hx] at h0
            exact h0 rfl
          cases hchk : checkElems flashElemCheck 0 xs with
          | ok u =>
            cases u
            exact ⟨xs, rfl, hne,
              (checkElems_ok_iff flashElemCheck FlashElemOk flashElemCheck_ok_iff 0 xs).1 hchk⟩
          | error e2 =>
            simp [validateFlash, h0, hchk, exOk] at h
      | str s => exact absurd h (by simp [validateFlash, exOk])
      | num q => exact absurd h (by simp [validateFlash, exOk])
      | bool b => exact absurd h (by simp [validateFlash, exOk])
      | null => exact absurd h (by simp [validateFlash, exOk])
      | obj kvs => exact absurd h (by simp [validateFlash, exOk])
    · rintro ⟨xs, rfl, hne, hall⟩
      have h1 : checkElems flashElemCheck 0 xs = Except.ok () :=
        (checkElems_ok_iff flashElemCheck FlashElemOk flashElemCheck_ok_iff 0 xs).2 hall
      have h0 : ¬ xs.length = 0 := by
        cases xs with
        | nil => exact absurd rfl hne
        | cons a as => simp
      simp [validateFlash, h0, h1, exOk]
  · constructor
    · intro h
      cases j with
      | arr xs =>
        by_cases h0 : xs.length = 0
        · simp [validateQuiz, h0, exOk] at h
        · have hne : xs ≠ [] := by
            intro hx
            rw [hx] at h0
            exact h0 rfl
          cases hchk : checkElems quizElemCheck 0 xs with
          | ok u =>
            cases u
            exact ⟨xs, rfl, hne,
              (checkElems_ok_iff quizElemCheck QuizElemOk quizElemCheck_ok_iff 0 xs).1 hchk⟩
          | error e2 =>
            simp [validateQuiz, h0, hchk, exOk] at h
      | str s => exact absurd h (by simp [validateQuiz, exOk])
      | num q => exact absurd h (by simp [validateQuiz, exOk])
      | bool b => exact absurd h (by simp [validateQuiz, exOk])
      | null => exact absurd h (by simp [validateQuiz, exOk])
      | obj kvs => exact absurd h (by simp [validateQuiz, exOk])
    · rintro ⟨xs, rfl, hne, hall⟩
      have h1 : checkElems quizElemCheck 0 xs = Except.ok () :=
        (checkElems_ok_iff quizElemCheck QuizElemOk quizElemCheck_ok_iff 0 xs).2 hall
      have h0 : ¬ xs.length = 0 := by
        cases xs with
        | nil => exact absurd rfl hne
        | cons a as => simp
      simp [validateQuiz, h0, h1, exOk]
  · rintro xs n fn rfl h
    by_cases h0 : xs.length = 0
    · simp [validateFlash, h0] at h
    · cases hchk : checkElems flashElemCheck 0 xs with
      | ok u => cases u; simp [validateFlash, h0, hchk] at h
      | error e2 =>
        simp only [validateFlash, if_neg h0, hchk] at h
        have he2 : e2 = VErr.badField n fn := by simpa using h
        rw [he2] at hchk
        obtain ⟨k, c, hk, hget, hnP, hpre⟩ :=
          checkElems_err flashElemCheck FlashElemOk flashElemCheck_ok_iff
            flashElemCheck_badField xs 0 n fn hchk
        have hkn : k = n := by omega
        rw [hkn] at hget hpre
        exact ⟨c, hget, hnP, hpre⟩
  · rintro xs n fn rfl h
    by_cases h0 : xs.length = 0
    · simp [validateQuiz, h0] at h
    · cases hchk : checkElems quizElemCheck 0 xs with
      | ok u => cases u; simp [validateQuiz, h0, hchk] at h
      | error e2 =>
        simp only [validateQuiz, if_neg h0, hchk] at h
        have he2 : e2 = VErr.badField n fn := by simpa using h
        rw [he2] at hchk
        obtain ⟨k, c, hk, hget, hnP, hpre⟩ :=
          checkElems_err quizElemCheck QuizElemOk quizElemCheck_ok_iff
            quizElemCheck_badField xs 0 n fn hchk
        have hkn : k = n := by omega
        rw [hkn] at hget hpre
        exact ⟨c, hget, hnP, hpre⟩

def goodFlashElem : Json :=
  Json.obj [(qKey, Json.str ("q".toList)), (aKey, Json.str ("a".toList))]

def badFlashElem : Json :=
  Json.obj [(qKey, Json.str ("q".toList)), (aKey, Json.str [])]

/-- Witness for C7: on `[good, bad]` the flashcard validator reports the
offending element at index 1 with a preceding valid element. -/
theorem c7_witness :
    ∃ c, ([goodFlashElem, badFlashElem] : List Json)[1]? = some c ∧ ¬ FlashElemOk c
      ∧ ∀ m, m < 1 → ∃ d, ([goodFlashElem, badFlashElem] : List Json)[m]? = some d
          ∧ FlashElemOk d :=
  (c7_validator_spec (Json.arr [goodFlashElem, badFlashElem])).2.2.1
    [goodFlashElem, badFlashElem] 1 FieldName.answer rfl rfl

def quizBadElem : Json :=
  Json.obj [(qKey, Json.str []),
    (optKey, Json.arr [Json.num (mkRat 1 1), Json.str [], Json.str ("c".toList),
      Json.str ("d".toList)]),
    (caKey, Json.num (mkRat 0 1))]

/-- Counterexample to C7 as stated: the quiz validator accepts a payload
whose single element has an EMPTY `question` text and whose `options`
contain a number and an empty string — both defects the claim says must be
rejected. -/
theorem c7_counterexample :
    exOk (validateQuiz (Json.arr [quizBadElem])) = true
    ∧ getField quizBadElem qKey = some (Json.str [])
    ∧ trimChars [] = []
    ∧ (∃ os, getField quizBadElem optKey = some (Json.arr os)
        ∧ Json.str [] ∈ os ∧ Json.num (mkRat 1 1) ∈ os) := by
  refine ⟨rfl, rfl, rfl, ⟨_, rfl, ?_, ?_⟩⟩
  · exact List.Mem.tail _ (List.Mem.head _)
  · exact List.Mem.head _

/-! ## Claim C8: fence stripping -/

theorem dropWhile_append_ne (p : Char → Bool) (a b : List Char) (h : a.dropWhile p ≠ []) :
    (a ++ b).dropWhile p = a.dropWhile p ++ b := by
  induction a with
  | nil => exact absurd rfl h
  | cons c a2 ih =>
    by_cases hp : p c = true
    · rw [List.cons_append, List.dropWhile_cons, if_pos hp]
      rw [List.dropWhile_cons, if_pos hp]
      rw [List.dropWhile_cons, if_pos hp] at h
      exact ih h
    · rw [List.cons_append, List.dropWhile_cons, if_neg hp,
        List.dropWhile_cons, if_neg hp]
      rfl

theorem trim_prefix_drop (l : List Char) : trimChars l <+: l.dropWhile isWsC := by
  unfold trimChars
  have h : ((l.dropWhile isWsC).reverse.dropWhile isWsC) <:+ (l.dropWhile isWsC).reverse :=
    List.dropWhile_suffix isWsC
  have h2 : ((l.dropWhile isWsC).reverse.dropWhile isWsC).reverse <+:
      (l.dropWhile isWsC).reverse.reverse := List.reverse_prefix.2 h
  rw [List.reverse_reverse] at h2
  exact h2

theorem head?_of_trim (raw : List Char) (c : Char) (h : (trimChars raw).head? = some c) :
    (raw.dropWhile isWsC).head? = some c := by
  obtain ⟨t, ht⟩ := trim_prefix_drop raw
  cases htrim : trimChars raw with
  | nil => rw [htrim] at h; simp at h
  | cons c0 rest =>
    rw [htrim] at h ht
    rw [← ht]
    simpa using h

theorem raw_head_cases (raw : List Char) (c0 : Char)
    (hd : (raw.dropWhile isWsC).head? = some c0) :
    ∃ c1, raw.head? = some c1 ∧ (isWsC c1 = true ∨ c1 = c0) := by
  cases raw with
  | nil => simp [List.dropWhile] at hd
  | cons a t =>
    by_cases hp : isWsC a = true
    · exact ⟨a, rfl, Or.inl hp⟩
    · rw [List.dropWhile_cons, if_neg hp] at hd
      refine ⟨a, rfl, Or.inr ?_⟩
      simpa using hd

theorem raw_getLast_cases (raw : List Char) (c0 : Char)
    (hd : (trimChars raw).getLast? = some c0) :
    ∃ c1, raw.getLast? = some c1 ∧ (isWsC c1 = true ∨ c1 = c0) := by
  have he : ((raw.dropWhile isWsC).reverse.dropWhile isWsC).head? = some c0 := by
    have : (trimChars raw).getLast? =
        ((raw.dropWhile isWsC).reverse.dropWhile isWsC).head? := by
      unfold trimChars
      rw [List.getLast?_reverse]
    rw [this] at hd
    exact hd
  obtain ⟨c1, hc1, hcase⟩ := raw_head_cases (raw.dropWhile isWsC).reverse c0 he
  rw [List.head?_reverse] at hc1
  have hdne : raw.dropWhile isWsC ≠ [] := by
    intro hx
    rw [hx] at hc1
    simp at hc1
  refine ⟨c1, ?_, hcase⟩
  have hsplit : raw.takeWhile isWsC ++ raw.dropWhile isWsC = raw :=
    List.takeWhile_append_dropWhile isWsC raw
  rw [← hsplit, List.getLast?_append_of_ne_nil _ hdne]
  exact hc1

theorem ws_toLower_ne (c : Char) (h : isWsC c = true) :
    Char.toLower c ≠ Char.ofNat 96 := by
  unfold isWsC at h
  simp only [Bool.or_eq_true, beq_iff_eq] at h
  rcases h with ((rfl | rfl) | rfl) | rfl <;> decide

theorem ws_ne_backtick (c : Char) (h : isWsC c = true) : c ≠ Char.ofNat 96 := by
  unfold isWsC at h
  simp only [Bool.or_eq_true, beq_iff_eq] at h
  rcases h with ((rfl | rfl) | rfl) | rfl <;> decide

theorem rl_eq_self_of_head (raw : List Char) (c : Char) (hhead : raw.head? = some c)
    (hc : Char.toLower c ≠ Char.ofNat 96) : stripLeadFence raw = raw := by
  unfold stripLeadFence
  rw [if_neg]
  intro heq
  cases raw with
  | nil => simp at hhead
  | cons a t =>
    have hac : a = c := by simpa using hhead
    have h7 : ((a :: t).take 7).map Char.toLower = Char.toLower a :: (t.take 6).map Char.toLower := by
      rfl
    rw [h7] at heq
    have hj : jsonFenceChars.head? = some (Char.ofNat 96) := by decide
    rw [← heq] at hj
    have : Char.toLower a = Char.ofNat 96 := by simpa using hj
    rw [hac] at this
    exact hc this

theorem rt_eq_self_of_getLast (raw : List Char) (c : Char) (hlast : raw.getLast? = some c)
    (hc : c ≠ Char.ofNat 96) : stripTrailFence raw = raw := by
  unfold stripTrailFence
  rw [if_neg]
  intro hsuf
  have hsuf2 : fenceChars <:+ raw := List.isSuffixOf_iff_suffix.1 hsuf
  obtain ⟨y, hy⟩ := hsuf2
  rw [← hy, List.getLast?_append_of_ne_nil _ (by decide)] at hlast
  have hfc : fenceChars.getLast? = some (Char.ofNat 96) := by decide
  rw [hfc] at hlast
  exact hc (by simpa using hlast.symm)

theorem strip_eq_trim (raw : List Char)
    (h1 : (trimChars raw).head? = some '[')
    (h2 : (trimChars raw).getLast? = some ']') :
    stripFences raw = trimChars raw := by
  obtain ⟨c1, hc1, hcase1⟩ := raw_head_cases raw '[' (head?_of_trim raw _ h1)
  have hrl : stripLeadFence raw = raw := by
    apply rl_eq_self_of_head raw c1 hc1
    rcases hcase1 with hws | rfl
    · exact ws_toLower_ne c1 hws
    · decide
  obtain ⟨c2, hc2, hcase2⟩ := raw_getLast_cases raw ']' h2
  have hrt : stripTrailFence raw = raw := by
    apply rt_eq_self_of_getLast raw c2 hc2
    rcases hcase2 with hws | rfl
    · exact ws_ne_backtick c2 hws
    · decide
  unfold stripFences
  rw [hrl, hrt]

theorem trimChars_idem (l : List Char) (c1 c2 : Char)
    (h1 : (trimChars l).head? = some c1) (hw1 : isWsC c1 = false)
    (h2 : (trimChars l).getLast? = some c2) (hw2 : isWsC c2 = false) :
    trimChars (trimChars l) = trimChars l := by
  have ha : (trimChars l).dropWhile isWsC = trimChars l := by
    cases htl : trimChars l with
    | nil => rfl
    | cons a t =>
      rw [htl] at h1
      have hac : a = c1 := by simpa using h1
      rw [List.dropWhile_cons, if_neg (by rw [hac, hw1]; simp)]
  have hb : ((trimChars l).reverse).dropWhile isWsC = (trimChars l).reverse := by
    cases hrev : (trimChars l).reverse with
    | nil => rfl
    | cons a t =>
      have hha : (trimChars l).reverse.head? = some a := by rw [hrev]; rfl
      rw [List.head?_reverse, h2] at hha
      have hac : a = c2 := by simpa using hha.symm
      rw [List.dropWhile_cons, if_neg (by rw [hac, hw2]; simp)]
  show (((trimChars l).dropWhile isWsC).reverse.dropWhile isWsC).reverse = trimChars l
  rw [ha, hb, List.reverse_reverse]

theorem strip_wrap (raw : List Char)
    (h1 : (trimChars raw).head? = some '[') :
    stripFences (wrapJsonFence raw) = trimChars raw := by
  have hd : (raw.dropWhile isWsC).head? = some '[' := head?_of_trim raw _ h1
  cases hdd : raw.dropWhile isWsC with
  | nil => rw [hdd] at hd; simp at hd
  | cons c0 t0 =>
    have hc0 : c0 = '[' := by rw [hdd] at hd; simpa using hd
    have hrl : stripLeadFence (wrapJsonFence raw) =
        (raw.dropWhile isWsC) ++ '\n' :: fenceChars := by
      unfold stripLeadFence wrapJsonFence
      have htake : ((jsonFenceChars ++ '\n' :: (raw ++ '\n' :: fenceChars)).take 7).map
          Char.toLower = jsonFenceChars := by
        have h7 : (7 : Nat) = jsonFenceChars.length := rfl
        rw [h7, List.take_left]
        decide
      rw [if_pos htake]
      have hdrop : (jsonFenceChars ++ '\n' :: (raw ++ '\n' :: fenceChars)).drop 7 =
          '\n' :: (raw ++ '\n' :: fenceChars) := by
        have h7 : (7 : Nat) = jsonFenceChars.length := rfl
        rw [h7, List.drop_left]
      rw [hdrop, List.dropWhile_cons, if_pos (by decide)]
      exact dropWhile_append_ne isWsC raw _ (by rw [hdd]; simp)
    have hre : (raw.dropWhile isWsC) ++ '\n' :: fenceChars =
        ((raw.dropWhile isWsC) ++ ['\n']) ++ fenceChars := by simp
    have hrt : stripTrailFence ((raw.dropWhile isWsC) ++ '\n' :: fenceChars) =
        (raw.dropWhile isWsC) ++ ['\n'] := by
      rw [hre]
      unfold stripTrailFence
      rw [if_pos (List.isSuffixOf_iff_suffix.2 (List.suffix_append _ _))]
      have hfl : fenceChars.length = 3 := rfl
      have hlen : (((raw.dropWhile isWsC) ++ ['\n']) ++ fenceChars).length - 3 =
          ((raw.dropWhile isWsC) ++ ['\n']).length := by
        rw [List.length_append, hfl]
        omega
      rw [hlen, List.take_left]
    have htrim : trimChars ((raw.dropWhile isWsC) ++ ['\n']) = trimChars raw := by
      have h1' : ((raw.dropWhile isWsC) ++ ['\n']).dropWhile isWsC =
          (raw.dropWhile isWsC) ++ ['\n'] := by
        rw [hdd, List.cons_append, List.dropWhile_cons,
          if_neg (by rw [hc0]; decide)]
      have h2' : ((raw.dropWhile isWsC) ++ ['\n']).reverse.dropWhile isWsC =
          ((raw.dropWhile isWsC).reverse).dropWhile isWsC := by
        rw [List.reverse_append]
        show List.dropWhile isWsC ('\n' :: (raw.dropWhile isWsC).reverse) = _
        rw [List.dropWhile_cons, if_pos (by decide)]
      show (((raw.dropWhile isWsC ++ ['\n']).dropWhile isWsC).reverse.dropWhile isWsC).reverse
          = trimChars raw
      rw [h1', h2']
      rfl
    unfold stripFences
    rw [hrl, hrt, htrim]

theorem strip_idem_of_array (raw : List Char)
    (h1 : (trimChars raw).head? = some '[')
    (h2 : (trimChars raw).getLast? = some ']') :
    stripFences (stripFences raw) = stripFences raw := by
  rw [strip_eq_trim raw h1 h2]
  unfold stripFences
  rw [rl_eq_self_of_head (trimChars raw) '[' h1 (by decide),
    rt_eq_self_of_getLast (trimChars raw) ']' h2 (by decide)]
  exact trimChars_idem raw '[' ']' h1 (by decide) h2 (by decide)

/-- C8 amended: for every payload whose trimmed text is a bare JSON array
(first non-blank character `[`, last non-blank character `]`), wrapping in
a fenced block whose language tag is the REQUIRED literal three-backtick
`json` marker (case-insensitive) and a trailing closing fence validates to
the identical result, and fence-stripping is idempotent on such payloads.
A bare fence with no `json` tag is not stripped, and stripping is not
idempotent on arbitrary text. -/
theorem c8_fence_spec (raw : List Char)
    (h1 : (trimChars raw).head? = some '[')
    (h2 : (trimChars raw).getLast? = some ']') :
    stripFences (wrapJsonFence raw) = stripFences raw
    ∧ stripFences (stripFences raw) = stripFences raw
    ∧ validateRawFlash (wrapJsonFence raw) = validateRawFlash raw
    ∧ validateRawQuiz (wrapJsonFence raw) = validateRawQuiz raw := by
  have hsw : stripFences (wrapJsonFence raw) = stripFences raw := by
    rw [strip_wrap raw h1, strip_eq_trim raw h1 h2]
  refine ⟨hsw, strip_idem_of_array raw h1 h2, ?_, ?_⟩
  · unfold validateRawFlash
    rw [hsw]
  · unfold validateRawQuiz
    rw [hsw]

def sampleFlashRaw : List Char :=
  "[\x7b\"question\":\"q\",\"answer\":\"a\"\x7d]".toList

/-- Witness for the amended C8 at a concrete flashcard payload. -/
theorem c8_witness :
    stripFences (wrapJsonFence sampleFlashRaw) = stripFences sampleFlashRaw
    ∧ stripFences (stripFences sampleFlashRaw) = stripFences sampleFlashRaw
    ∧ validateRawFlash (wrapJsonFence sampleFlashRaw) = validateRawFlash sampleFlashRaw
    ∧ validateRawQuiz (wrapJsonFence sampleFlashRaw) = validateRawQuiz sampleFlashRaw :=
  c8_fence_spec sampleFlashRaw (by decide) (by decide)

def nastyFenced : List Char := "```JSON```json a```".toList

/-- Counterexample to C8 as stated: the language tag is NOT optional — the
same valid payload wrapped in a bare (tagless) fence fails to parse — and
fence-stripping is not idempotent in general. -/
theorem c8_counterexample :
    exOk (validateRawFlash sampleFlashRaw) = true
    ∧ validateRawFlash (wrapBareFence sampleFlashRaw) = Except.error VErr.parseFail
    ∧ stripFences (stripFences nastyFenced) ≠ stripFences nastyFenced := by
  refine ⟨rfl, rfl, by decide⟩

end Sidis
